import Mathlib

/-!
Verification of the navigation-test result analyzer (`analyze-results.py`).

The script reads a CSV of navigation-test records, folds them into per-layout
and per-direction statistics held in nested `defaultdict`s, and then renders
an overall summary, a per-layout detail section, and a comparison table.

The embedding below models:
  * a CSV row as `Record` (all fields strings, exactly as `csv.DictReader`
    yields them);
  * the nested `defaultdict` statistics as association lists with explicit
    default-inserting access (`dadGet`), mirroring Python `defaultdict`
    semantics where `m[k]` on a missing key inserts the default;
  * the aggregation loop as a fold (`aggregate` / `updateStats`);
  * the reporting passes as state-passing functions (the report state matters
    because `defaultdict` access during reporting can insert entries);
  * Python `float` percentages as exact rationals, with the division in the
    overall summary (which is unguarded in the source and raises
    `ZeroDivisionError` on an empty dataset) modelled as an `Option`.
-/

/-- One row of the input CSV, as read by `csv.DictReader` (all fields kept as
strings, no coercion). -/
structure Record where
  layout : String
  direction : String
  status : String
  expected : String
  actual : String
deriving DecidableEq

/-- The per-direction counter triple `{'total': 0, 'passed': 0, 'failed': 0}`. -/
structure DirStats where
  total : Nat
  passed : Nat
  failed : Nat
deriving DecidableEq

/-- The `failure_types` counters `{'unexpected': 0, 'missing': 0, 'wrong_target': 0}`. -/
structure FailureTypes where
  unexpected : Nat
  missing : Nat
  wrong_target : Nat
deriving DecidableEq

/-- A direction map: the inner `defaultdict` keyed by direction string. -/
abbrev DirMap := List (String × DirStats)

/-- One layout's statistics, the value type of the `layout_stats` defaultdict. -/
structure LayoutStats where
  total : Nat
  passed : Nat
  failed : Nat
  by_direction : DirMap
  failure_types : FailureTypes
deriving DecidableEq

/-- The `layout_stats` defaultdict, keyed by layout string. -/
abbrev StatsMap := List (String × LayoutStats)

/-- Default value of the inner direction defaultdict. -/
def zeroDirStats : DirStats := ⟨0, 0, 0⟩

/-- Default value of the `layout_stats` defaultdict. -/
def zeroLayoutStats : LayoutStats := ⟨0, 0, 0, [], ⟨0, 0, 0⟩⟩

/-- Association-list lookup (first binding wins, like a dict). -/
def alookup {α : Type} : List (String × α) → String → Option α
  | [], _ => none
  | (k', v) :: t, k => if k' = k then some v else alookup t k

/-- Dict read with a default: the value bound to `k`, or `d` if absent. -/
def agetD {α : Type} (m : List (String × α)) (k : String) (d : α) : α :=
  (alookup m k).getD d

/-- `defaultdict` update: apply `f` to the value bound to `k`, or bind
`k ↦ f d` (inserted at the end, matching dict insertion order) if absent.
This is the net effect of `m[k] = f(m[k])` on a Python `defaultdict`. -/
def alterD {α : Type} : List (String × α) → String → α → (α → α) → List (String × α)
  | [], k, d, f => [(k, f d)]
  | (k', v) :: t, k, d, f =>
      if k' = k then (k', f v) :: t else (k', v) :: alterD t k d f

/-- `defaultdict` access `m[k]`: returns the stored value and the (possibly
extended) dict — on a missing key, Python inserts the default. -/
def dadGet {α : Type} (m : List (String × α)) (k : String) (d : α) :
    α × List (String × α) :=
  match alookup m k with
  | some v => (v, m)
  | none => (d, m ++ [(k, d)])

/-- Write back a value for a key (models in-place mutation of the object the
dict holds for `k`). -/
def aset {α : Type} (m : List (String × α)) (k : String) (v : α) :
    List (String × α) :=
  alterD m k v (fun _ => v)

/-- The key list of a dict, in insertion order (`m.keys()`). -/
def akeys {α : Type} (m : List (String × α)) : List String := m.map Prod.fst

/-- The body of the aggregation loop acting on one layout's stats
(lines 29-45 of the source): increment `total` at both levels, then classify
the status and, for failures, the failure type. -/
def updateStats (row : Record) (stats : LayoutStats) : LayoutStats :=
  let stats := { stats with total := stats.total + 1 }
  let stats :=
    { stats with
      by_direction := alterD stats.by_direction row.direction zeroDirStats
        (fun d => { d with total := d.total + 1 }) }
  if row.status = "PASS" then
    let stats := { stats with passed := stats.passed + 1 }
    { stats with
      by_direction := alterD stats.by_direction row.direction zeroDirStats
        (fun d => { d with passed := d.passed + 1 }) }
  else
    let stats := { stats with failed := stats.failed + 1 }
    let stats :=
      { stats with
        by_direction := alterD stats.by_direction row.direction zeroDirStats
          (fun d => { d with failed := d.failed + 1 }) }
    if row.expected = "null" ∧ row.actual ≠ "null" then
      { stats with
        failure_types :=
          { stats.failure_types with
            unexpected := stats.failure_types.unexpected + 1 } }
    else if row.expected ≠ "null" ∧ row.actual = "null" then
      { stats with
        failure_types :=
          { stats.failure_types with
            missing := stats.failure_types.missing + 1 } }
    else
      { stats with
        failure_types :=
          { stats.failure_types with
            wrong_target := stats.failure_types.wrong_target + 1 } }

/-- One iteration of `for row in results` (the `stats = layout_stats[layout]`
defaultdict access followed by the in-place updates). -/
def stepRecord (layout_stats : StatsMap) (row : Record) : StatsMap :=
  alterD layout_stats row.layout zeroLayoutStats (updateStats row)

/-- The whole aggregation loop: fold the records, in input order, into the
initially empty `layout_stats`. -/
def aggregate (results : List Record) : StatsMap :=
  results.foldl stepRecord []

/-- The stats the program would observe for a layout (defaultdict view). -/
def layoutView (m : StatsMap) (layout : String) : LayoutStats :=
  agetD m layout zeroLayoutStats

/-- The counters the program would observe for a direction (defaultdict view). -/
def dirView (stats : LayoutStats) (direction : String) : DirStats :=
  agetD stats.by_direction direction zeroDirStats

/-- The fixed direction list `['up', 'down', 'left', 'right']` used by both
reporting passes. -/
def canonicalDirections : List String := ["up", "down", "left", "right"]

/-- Line 70 of the source:
`success_rate = stats['passed'] / stats['total'] * 100 if stats['total'] > 0 else 0`. -/
def success_rate (stats : LayoutStats) : ℚ :=
  if stats.total > 0 then (stats.passed : ℚ) / (stats.total : ℚ) * 100 else 0

/-- Line 103 of the source (textually the same guarded expression as line 70):
`overall_rate = stats['passed'] / stats['total'] * 100 if stats['total'] > 0 else 0`. -/
def overall_rate (stats : LayoutStats) : ℚ :=
  if stats.total > 0 then (stats.passed : ℚ) / (stats.total : ℚ) * 100 else 0

/-- One printed line of the per-layout "By Direction" block (line 83-85):
the numbers the f-string interpolates. -/
structure DirLine where
  direction : String
  total : Nat
  passed : Nat
  rate : ℚ
  failed : Nat
deriving DecidableEq

/-- One iteration of the "By Direction" loop (lines 79-85):
`dir_stats = stats['by_direction'][direction]` is a defaultdict access (it
inserts a zero triple when the direction is absent), then a line is printed
only when `dir_stats['total'] > 0`. -/
def dirLineStep (acc : List DirLine × DirMap) (direction : String) :
    List DirLine × DirMap :=
  let g := dadGet acc.2 direction zeroDirStats
  let dir_stats := g.1
  if dir_stats.total > 0 then
    (acc.1 ++ [⟨direction, dir_stats.total, dir_stats.passed,
      (dir_stats.passed : ℚ) / (dir_stats.total : ℚ) * 100, dir_stats.failed⟩],
     g.2)
  else (acc.1, g.2)

/-- The whole "By Direction" block for one layout: the printed lines and the
direction map as the defaultdict accesses leave it. -/
def byDirectionSection (by_direction : DirMap) : List DirLine × DirMap :=
  canonicalDirections.foldl dirLineStep ([], by_direction)

/-- Pure description of one "By Direction" line: what is printed for a
direction, or `none` when it is skipped (zero total). -/
def dirLineOf (by_direction : DirMap) (direction : String) : Option DirLine :=
  let dir_stats := agetD by_direction direction zeroDirStats
  if dir_stats.total > 0 then
    some ⟨direction, dir_stats.total, dir_stats.passed,
      (dir_stats.passed : ℚ) / (dir_stats.total : ℚ) * 100, dir_stats.failed⟩
  else none

/-- One cell of the comparison table: a rate (printed with a `%` suffix) or
the literal `N/A` marker. -/
inductive Cell where
  | rate (r : ℚ)
  | na
deriving DecidableEq

/-- One iteration of the comparison-table direction loop (lines 106-112);
again `stats['by_direction'][direction]` is a defaultdict access. -/
def cellStep (acc : List Cell × DirMap) (direction : String) :
    List Cell × DirMap :=
  let g := dadGet acc.2 direction zeroDirStats
  let dir_stats := g.1
  if dir_stats.total > 0 then
    (acc.1 ++ [Cell.rate ((dir_stats.passed : ℚ) / (dir_stats.total : ℚ) * 100)],
     g.2)
  else (acc.1 ++ [Cell.na], g.2)

/-- The `dir_rates` list for one comparison-table row, with the direction map
as the defaultdict accesses leave it. -/
def comparisonCells (by_direction : DirMap) : List Cell × DirMap :=
  canonicalDirections.foldl cellStep ([], by_direction)

/-- Pure description of one comparison-table cell. -/
def cellOf (by_direction : DirMap) (direction : String) : Cell :=
  let dir_stats := agetD by_direction direction zeroDirStats
  if dir_stats.total > 0 then
    Cell.rate ((dir_stats.passed : ℚ) / (dir_stats.total : ℚ) * 100)
  else Cell.na

/-- Python's `/` on the summary totals: raises `ZeroDivisionError` when the
denominator is zero, modelled as `none`. -/
def qdiv (a b : ℚ) : Option ℚ :=
  if b = 0 then none else some (a / b)

/-- Line 54: `total_tests = sum(s['total'] for s in layout_stats.values())`. -/
def total_tests (layout_stats : StatsMap) : Nat :=
  (layout_stats.map (fun s => s.2.total)).sum

/-- Line 55: `total_passed = sum(s['passed'] for s in layout_stats.values())`. -/
def total_passed (layout_stats : StatsMap) : Nat :=
  (layout_stats.map (fun s => s.2.passed)).sum

/-- Line 56: `total_failed = sum(s['failed'] for s in layout_stats.values())`. -/
def total_failed (layout_stats : StatsMap) : Nat :=
  (layout_stats.map (fun s => s.2.failed)).sum

/-- The numbers printed by the overall summary (lines 54-62). -/
structure OverallSummary where
  tests : Nat
  passed : Nat
  failed : Nat
  passed_pct : ℚ
  failed_pct : ℚ
deriving DecidableEq

/-- The overall summary: lines 61 and 62 divide by `total_tests` without a
guard, so an empty dataset aborts the run (`none`). Line 61 computes
`total_passed/total_tests*100` and line 62 computes `total_failed/total_tests*100`. -/
def overallSummary (layout_stats : StatsMap) : Option OverallSummary :=
  let tt := total_tests layout_stats
  let tp := total_passed layout_stats
  let tf := total_failed layout_stats
  match qdiv (tp : ℚ) (tt : ℚ), qdiv (tf : ℚ) (tt : ℚ) with
  | some pr, some fr => some ⟨tt, tp, tf, pr * 100, fr * 100⟩
  | _, _ => none

/-- Modelled from the spec: the overall-summary failed percentage "computed as
the complementary share of `passed` ... from 100 minus the passed rate, not
recomputed independently" (the source itself, line 62, instead recomputes
`total_failed/total_tests*100`; this definition exists to compare the spec's
formula with the source's). -/
def overallFailedComplement (layout_stats : StatsMap) : Option ℚ :=
  (qdiv (total_passed layout_stats : ℚ) (total_tests layout_stats : ℚ)).map
    (fun r => 100 - r * 100)

/-- Line 62 of the source as a value: the failed percentage the overall
summary prints, `total_failed/total_tests*100`. -/
def overallFailedPct (layout_stats : StatsMap) : Option ℚ :=
  (overallSummary layout_stats).map OverallSummary.failed_pct

/-- Everything one per-layout section prints (lines 68-91). -/
structure LayoutSection where
  layout : String
  header : String
  total : Nat
  passed : Nat
  failed : Nat
  passedPct : ℚ
  failedPct : ℚ
  dirLines : List DirLine
  unexpected : Nat
  missing : Nat
  wrong_target : Nat
deriving DecidableEq

/-- One iteration of the per-layout loop (lines 68-91):
`stats = layout_stats[layout]` is a defaultdict access; the "By Direction"
loop's defaultdict accesses mutate `stats['by_direction']` in place, which the
final `aset` writes back. Line 76 prints the failed percentage as
`100-success_rate`. -/
def renderLayout (m : StatsMap) (layout : String) : LayoutSection × StatsMap :=
  let g := dadGet m layout zeroLayoutStats
  let stats := g.1
  let rate := success_rate stats
  let b := byDirectionSection stats.by_direction
  (⟨layout, layout.toUpper, stats.total, stats.passed, stats.failed,
    rate, 100 - rate, b.1,
    stats.failure_types.unexpected, stats.failure_types.missing,
    stats.failure_types.wrong_target⟩,
   aset g.2 layout { stats with by_direction := b.2 })

/-- The layout names in the order both reporting passes visit them:
`sorted(layout_stats.keys())`. -/
def sortedKeys (layout_stats : StatsMap) : List String :=
  List.insertionSort (· ≤ ·) (akeys layout_stats)

/-- Pass B, the per-layout detail (lines 68-91): the printed sections and the
`layout_stats` state the pass leaves behind. -/
def passB (layout_stats : StatsMap) : List LayoutSection × StatsMap :=
  (sortedKeys layout_stats).foldl
    (fun acc layout =>
      let r := renderLayout acc.2 layout
      (acc.1 ++ [r.1], r.2))
    ([], layout_stats)

/-- One row of the comparison table (line 114). -/
structure TableRow where
  layout : String
  overallRate : ℚ
  cells : List Cell
deriving DecidableEq

/-- One iteration of the comparison-table loop (lines 101-114). -/
def renderRow (m : StatsMap) (layout : String) : TableRow × StatsMap :=
  let g := dadGet m layout zeroLayoutStats
  let stats := g.1
  let c := comparisonCells stats.by_direction
  (⟨layout, overall_rate stats, c.1⟩,
   aset g.2 layout { stats with by_direction := c.2 })

/-- Pass C, the comparison table (lines 101-114). -/
def passC (layout_stats : StatsMap) : List TableRow × StatsMap :=
  (sortedKeys layout_stats).foldl
    (fun acc layout =>
      let r := renderRow acc.2 layout
      (acc.1 ++ [r.1], r.2))
    ([], layout_stats)

/-- The `layout_stats` state once the whole report has been printed (pass B
then pass C run their defaultdict accesses over it). -/
def reportState (layout_stats : StatsMap) : StatsMap :=
  (passC (passB layout_stats).2).2

/-- Everything the program prints. -/
structure Report where
  summary : OverallSummary
  sections : List LayoutSection
  table : List TableRow
deriving DecidableEq

/-- The whole pipeline after loading: aggregate, then print. The overall
summary comes first; on an empty dataset its division by zero aborts the run
before any layout section is printed (`none`). -/
def fullReport (results : List Record) : Option Report :=
  let layout_stats := aggregate results
  match overallSummary layout_stats with
  | none => none
  | some s =>
    let b := passB layout_stats
    let c := passC b.2
    some ⟨s, b.1, c.1⟩

/-- A passing record, used as a concrete input below. -/
def rPassUp : Record := ⟨"a", "up", "PASS", "n1", "n1"⟩

/-- The stats `aggregate [rPassUp]` assigns to layout `"a"`. -/
def statsPassUp : LayoutStats := ⟨1, 1, 0, [("up", ⟨1, 1, 0⟩)], ⟨0, 0, 0⟩⟩

/-- A concrete record for layout `"b"`, used as a concrete input below. -/
def rOther : Record := ⟨"b", "left", "FAIL", "null", "n7"⟩

/-- A stats map whose counters do not satisfy the aggregation invariant
`total = passed + failed` (total 3, passed 1, failed 1): it separates the two
candidate formulas for the overall failed percentage. -/
def mUnbalanced : StatsMap := [("x", ⟨3, 1, 1, [], ⟨0, 0, 0⟩⟩)]

/-- The per-layout and per-direction counter equations the aggregation
maintains (the spec's invariants, stated of one layout's stats). -/
def preOk (s : LayoutStats) : Prop :=
  s.total = s.passed + s.failed ∧
  s.failed = s.failure_types.unexpected + s.failure_types.missing +
    s.failure_types.wrong_target ∧
  ∀ p ∈ s.by_direction, p.2.total = p.2.passed + p.2.failed

/-- Every entry of the stats map satisfies the counter equations and has been
touched at least once. -/
def mapOk (m : StatsMap) : Prop := ∀ p ∈ m, preOk p.2 ∧ 0 < p.2.total

/-- `m'` is observationally the same statistics as `m`: every layout lookup
yields the same counters and failure types, and every direction lookup within
it yields the same triple. -/
def ObsEq (m m' : StatsMap) : Prop :=
  (∀ l, (layoutView m' l).total = (layoutView m l).total ∧
    (layoutView m' l).passed = (layoutView m l).passed ∧
    (layoutView m' l).failed = (layoutView m l).failed ∧
    (layoutView m' l).failure_types = (layoutView m l).failure_types) ∧
  (∀ l d, dirView (layoutView m' l) d = dirView (layoutView m l) d)

example :
    aggregate [rPassUp] = [("a", statsPassUp)] := by decide

example :
    aggregate [⟨"a", "up", "FAIL", "null", "null"⟩] =
      [("a", ⟨1, 0, 1, [("up", ⟨1, 0, 1⟩)], ⟨0, 0, 1⟩⟩)] := by decide

example :
    aggregate [⟨"a", "up", "FAIL", "null", "n2"⟩] =
      [("a", ⟨1, 0, 1, [("up", ⟨1, 0, 1⟩)], ⟨1, 0, 0⟩⟩)] := by decide

example :
    aggregate [⟨"a", "up", "FAIL", "n1", "null"⟩] =
      [("a", ⟨1, 0, 1, [("up", ⟨1, 0, 1⟩)], ⟨0, 1, 0⟩⟩)] := by decide

/-! ### Association-list lemmas -/

theorem alookup_alterD_self {α : Type} (m : List (String × α)) (k : String)
    (d : α) (f : α → α) :
    alookup (alterD m k d f) k = some (f (agetD m k d)) := by
  induction m with
  | nil => simp [alterD, alookup, agetD]
  | cons p t ih =>
    obtain ⟨k', v⟩ := p
    by_cases h : k' = k
    · simp [alterD, alookup, agetD, h]
    · simp [alterD, alookup, agetD, h, ih]

theorem alookup_alterD_ne {α : Type} (m : List (String × α)) {k k' : String}
    (d : α) (f : α → α) (h : k' ≠ k) :
    alookup (alterD m k d f) k' = alookup m k' := by
  induction m with
  | nil => simp [alterD, alookup, Ne.symm h]
  | cons p t ih =>
    obtain ⟨k₀, v⟩ := p
    by_cases h0 : k₀ = k
    · subst h0
      simp [alterD, alookup, Ne.symm h]
    · simp [alterD, alookup, h0, ih]

theorem agetD_alterD_self {α : Type} (m : List (String × α)) (k : String)
    (d d' : α) (f : α → α) :
    agetD (alterD m k d f) k d' = f (agetD m k d) := by
  unfold agetD
  rw [alookup_alterD_self]
  rfl

theorem agetD_alterD_ne {α : Type} (m : List (String × α)) {k k' : String}
    (d d' : α) (f : α → α) (h : k' ≠ k) :
    agetD (alterD m k d f) k' d' = agetD m k' d' := by
  unfold agetD
  rw [alookup_alterD_ne m d f h]

theorem alterD_alterD {α : Type} (m : List (String × α)) (k : String) (d : α)
    (f g : α → α) :
    alterD (alterD m k d f) k d g = alterD m k d (fun x => g (f x)) := by
  induction m with
  | nil => simp [alterD]
  | cons p t ih =>
    obtain ⟨k₀, v⟩ := p
    by_cases h0 : k₀ = k
    · simp [alterD, h0]
    · simp [alterD, h0, ih]

theorem mem_alterD {α : Type} {m : List (String × α)} {k : String} {d : α}
    {f : α → α} {p : String × α} (hp : p ∈ alterD m k d f) :
    p ∈ m ∨ p = (k, f (agetD m k d)) := by
  induction m with
  | nil =>
    right
    simpa [alterD, agetD, alookup] using hp
  | cons q t ih =>
    obtain ⟨k₀, v⟩ := q
    by_cases h0 : k₀ = k
    · subst h0
      simp only [alterD, List.mem_cons, if_true, eq_self_iff_true] at hp
      rcases hp with h | h
      · right
        simp [agetD, alookup, h]
      · exact Or.inl (List.mem_cons_of_mem _ h)
    · simp only [alterD, List.mem_cons, if_neg h0] at hp
      rcases hp with h | h
      · exact Or.inl (by simp [h])
      · rcases ih h with h' | h'
        · exact Or.inl (List.mem_cons_of_mem _ h')
        · right
          rw [h']
          simp [agetD, alookup, h0]

theorem alookup_mem {α : Type} {m : List (String × α)} {k : String} {v : α}
    (h : alookup m k = some v) : (k, v) ∈ m := by
  induction m with
  | nil => simp [alookup] at h
  | cons q t ih =>
    obtain ⟨k₀, w⟩ := q
    by_cases h0 : k₀ = k
    · subst h0
      simp [alookup] at h
      simp [h]
    · simp only [alookup, if_neg h0] at h
      exact List.mem_cons_of_mem _ (ih h)

theorem dadGet_fst {α : Type} (m : List (String × α)) (k : String) (d : α) :
    (dadGet m k d).1 = agetD m k d := by
  unfold dadGet agetD
  cases alookup m k <;> rfl

theorem alookup_append_single {α : Type} (m : List (String × α))
    (k k' : String) (v : α) :
    alookup (m ++ [(k, v)]) k' =
      match alookup m k' with
      | some w => some w
      | none => if k = k' then some v else none := by
  induction m with
  | nil => simp [alookup]
  | cons q t ih =>
    obtain ⟨k₀, w⟩ := q
    by_cases h0 : k₀ = k'
    · simp [alookup, h0]
    · simp [alookup, h0, ih]

theorem agetD_dadGet {α : Type} (m : List (String × α)) (k k' : String)
    (d : α) :
    agetD (dadGet m k d).2 k' d = agetD m k' d := by
  unfold dadGet
  cases halo : alookup m k with
  | some v => rfl
  | none =>
    unfold agetD
    rw [alookup_append_single]
    cases halo' : alookup m k' with
    | some w => rfl
    | none =>
      by_cases h : k = k'
      · subst h
        simp
      · simp [h]

/-! ### The aggregation invariants -/

theorem dirOk_agetD (bd : DirMap) (direction : String)
    (h : ∀ p ∈ bd, p.2.total = p.2.passed + p.2.failed) :
    (agetD bd direction zeroDirStats).total =
      (agetD bd direction zeroDirStats).passed +
        (agetD bd direction zeroDirStats).failed := by
  unfold agetD
  cases halo : alookup bd direction with
  | none => simp [zeroDirStats]
  | some v => simpa using h (direction, v) (alookup_mem halo)

theorem dirOk_alterD (bd : DirMap) (direction : String)
    (f : DirStats → DirStats)
    (h : ∀ p ∈ bd, p.2.total = p.2.passed + p.2.failed)
    (hf : ∀ t : DirStats, t.total = t.passed + t.failed →
      (f t).total = (f t).passed + (f t).failed) :
    ∀ p ∈ alterD bd direction zeroDirStats f,
      p.2.total = p.2.passed + p.2.failed := by
  intro p hp
  rcases mem_alterD hp with h' | h'
  · exact h p h'
  · rw [h']
    exact hf _ (dirOk_agetD bd direction h)

theorem preOk_zero : preOk zeroLayoutStats := by
  refine ⟨rfl, rfl, ?_⟩
  intro p hp
  simp [zeroLayoutStats] at hp

theorem updateStats_total (row : Record) (s : LayoutStats) :
    (updateStats row s).total = s.total + 1 := by
  simp only [updateStats]
  split_ifs <;> rfl

theorem preOk_updateStats (row : Record) (s : LayoutStats) (h : preOk s) :
    preOk (updateStats row s) ∧ 0 < (updateStats row s).total := by
  obtain ⟨h1, h2, h3⟩ := h
  refine ⟨?_, by rw [updateStats_total]; omega⟩
  unfold preOk
  simp only [updateStats]
  split_ifs with hs hc1 hc2
  all_goals refine ⟨by dsimp; omega, by dsimp; omega, ?_⟩
  all_goals
    dsimp only
    simp only [alterD_alterD]
    exact dirOk_alterD _ _ _ h3 (fun t ht => by dsimp; omega)

theorem preOk_agetD (m : StatsMap) (k : String) (h : mapOk m) :
    preOk (agetD m k zeroLayoutStats) := by
  unfold agetD
  cases halo : alookup m k with
  | none => simpa using preOk_zero
  | some v => simpa using (h (k, v) (alookup_mem halo)).1

theorem mapOk_step (m : StatsMap) (row : Record) (h : mapOk m) :
    mapOk (stepRecord m row) := by
  intro p hp
  rcases mem_alterD hp with h' | h'
  · exact h p h'
  · rw [h']
    exact preOk_updateStats row _ (preOk_agetD m row.layout h)

theorem mapOk_foldl (rs : List Record) :
    ∀ m : StatsMap, mapOk m → mapOk (rs.foldl stepRecord m) := by
  induction rs with
  | nil => intro m h; exact h
  | cons r t ih => intro m h; exact ih _ (mapOk_step m r h)

theorem aggregate_ok (rs : List Record) : mapOk (aggregate rs) :=
  mapOk_foldl rs [] (by intro p hp; cases hp)

/-! ### Summary totals -/

theorem total_tests_alterD (m : StatsMap) (k : String)
    (f : LayoutStats → LayoutStats) (hf : ∀ s, (f s).total = s.total + 1) :
    total_tests (alterD m k zeroLayoutStats f) = total_tests m + 1 := by
  induction m with
  | nil => simp [total_tests, alterD, hf, zeroLayoutStats]
  | cons q t ih =>
    obtain ⟨k₀, v⟩ := q
    by_cases h0 : k₀ = k
    · simp [total_tests, alterD, h0, hf]
      omega
    · simp [total_tests, alterD, h0] at ih ⊢
      omega

theorem total_tests_step (m : StatsMap) (row : Record) :
    total_tests (stepRecord m row) = total_tests m + 1 :=
  total_tests_alterD m row.layout _ (updateStats_total row)

theorem total_tests_aggregate (rs : List Record) :
    total_tests (aggregate rs) = rs.length := by
  suffices h : ∀ m, total_tests (rs.foldl stepRecord m) = total_tests m + rs.length by
    simpa [aggregate, total_tests] using h []
  induction rs with
  | nil => intro m; simp
  | cons r t ih =>
    intro m
    simp only [List.foldl_cons, List.length_cons, ih, total_tests_step]
    omega

theorem totals_split :
    ∀ m : StatsMap, (∀ p ∈ m, p.2.total = p.2.passed + p.2.failed) →
      total_tests m = total_passed m + total_failed m := by
  intro m
  induction m with
  | nil => intro _; rfl
  | cons q t ih =>
    intro h
    have hq := h q (List.mem_cons_self q t)
    have ht := ih (fun p hp => h p (List.mem_cons_of_mem q hp))
    simp only [total_tests, total_passed, total_failed, List.map_cons,
      List.sum_cons] at ht ⊢
    omega

/-! ### The direction loops of the reporting passes -/

theorem dirLineStep_snd (acc : List DirLine × DirMap) (direction : String) :
    (dirLineStep acc direction).2 = (dadGet acc.2 direction zeroDirStats).2 := by
  unfold dirLineStep
  dsimp only
  split <;> rfl

theorem cellStep_snd (acc : List Cell × DirMap) (direction : String) :
    (cellStep acc direction).2 = (dadGet acc.2 direction zeroDirStats).2 := by
  unfold cellStep
  dsimp only
  split <;> rfl

theorem dirLineStep_fst (acc : List DirLine × DirMap) (direction : String) :
    (dirLineStep acc direction).1 =
      acc.1 ++ (dirLineOf acc.2 direction).toList := by
  unfold dirLineStep dirLineOf
  dsimp only
  rw [dadGet_fst]
  by_cases h : (agetD acc.2 direction zeroDirStats).total > 0 <;> simp [h]

theorem cellStep_fst (acc : List Cell × DirMap) (direction : String) :
    (cellStep acc direction).1 = acc.1 ++ [cellOf acc.2 direction] := by
  unfold cellStep cellOf
  dsimp only
  rw [dadGet_fst]
  by_cases h : (agetD acc.2 direction zeroDirStats).total > 0 <;> simp [h]

theorem fold_dadGet_agetD {β : Type}
    (stepf : List β × DirMap → String → List β × DirMap)
    (hsnd : ∀ acc d, (stepf acc d).2 = (dadGet acc.2 d zeroDirStats).2)
    (ds : List String) :
    ∀ (acc : List β) (bd : DirMap) (k : String),
      agetD (ds.foldl stepf (acc, bd)).2 k zeroDirStats =
        agetD bd k zeroDirStats := by
  induction ds with
  | nil => intro acc bd k; rfl
  | cons d t ih =>
    intro acc bd k
    rw [List.foldl_cons]
    have h1 := ih (stepf (acc, bd) d).1 (stepf (acc, bd) d).2 k
    rw [Prod.mk.eta] at h1
    rw [h1, hsnd, agetD_dadGet]

theorem byDirectionSection_agetD (bd : DirMap) (k : String) :
    agetD (byDirectionSection bd).2 k zeroDirStats = agetD bd k zeroDirStats :=
  fold_dadGet_agetD dirLineStep dirLineStep_snd canonicalDirections [] bd k

theorem comparisonCells_agetD (bd : DirMap) (k : String) :
    agetD (comparisonCells bd).2 k zeroDirStats = agetD bd k zeroDirStats :=
  fold_dadGet_agetD cellStep cellStep_snd canonicalDirections [] bd k

theorem dirLineOf_congr {bd bd₀ : DirMap} (d : String)
    (h : agetD bd d zeroDirStats = agetD bd₀ d zeroDirStats) :
    dirLineOf bd d = dirLineOf bd₀ d := by
  unfold dirLineOf
  rw [h]

theorem cellOf_congr {bd bd₀ : DirMap} (d : String)
    (h : agetD bd d zeroDirStats = agetD bd₀ d zeroDirStats) :
    cellOf bd d = cellOf bd₀ d := by
  unfold cellOf
  rw [h]

theorem byDirection_fold_fst (ds : List String) :
    ∀ (acc : List DirLine) (bd bd₀ : DirMap),
      (∀ k, agetD bd k zeroDirStats = agetD bd₀ k zeroDirStats) →
      (ds.foldl dirLineStep (acc, bd)).1 = acc ++ ds.filterMap (dirLineOf bd₀) := by
  induction ds with
  | nil => intro acc bd bd₀ h; simp
  | cons d t ih =>
    intro acc bd bd₀ h
    rw [List.foldl_cons]
    have hbd : ∀ k, agetD (dirLineStep (acc, bd) d).2 k zeroDirStats =
        agetD bd₀ k zeroDirStats := by
      intro k
      rw [dirLineStep_snd, agetD_dadGet]
      exact h k
    have h1 := ih (dirLineStep (acc, bd) d).1 (dirLineStep (acc, bd) d).2 bd₀ hbd
    rw [Prod.mk.eta] at h1
    refine Eq.trans h1 ?_
    rw [dirLineStep_fst]
    dsimp only
    rw [dirLineOf_congr d (h d)]
    cases hc : dirLineOf bd₀ d <;> simp [List.filterMap_cons, hc]

theorem cells_fold_fst (ds : List String) :
    ∀ (acc : List Cell) (bd bd₀ : DirMap),
      (∀ k, agetD bd k zeroDirStats = agetD bd₀ k zeroDirStats) →
      (ds.foldl cellStep (acc, bd)).1 = acc ++ ds.map (cellOf bd₀) := by
  induction ds with
  | nil => intro acc bd bd₀ h; simp
  | cons d t ih =>
    intro acc bd bd₀ h
    rw [List.foldl_cons]
    have hbd : ∀ k, agetD (cellStep (acc, bd) d).2 k zeroDirStats =
        agetD bd₀ k zeroDirStats := by
      intro k
      rw [cellStep_snd, agetD_dadGet]
      exact h k
    have h1 := ih (cellStep (acc, bd) d).1 (cellStep (acc, bd) d).2 bd₀ hbd
    rw [Prod.mk.eta] at h1
    refine Eq.trans h1 ?_
    rw [cellStep_fst]
    dsimp only
    rw [cellOf_congr d (h d)]
    simp

theorem byDirectionSection_fst (bd : DirMap) :
    (byDirectionSection bd).1 = canonicalDirections.filterMap (dirLineOf bd) := by
  unfold byDirectionSection
  simpa using byDirection_fold_fst canonicalDirections [] bd bd (fun k => rfl)

theorem comparisonCells_fst (bd : DirMap) :
    (comparisonCells bd).1 = canonicalDirections.map (cellOf bd) := by
  unfold comparisonCells
  simpa using cells_fold_fst canonicalDirections [] bd bd (fun k => rfl)

/-! ### The reporting passes leave the observable statistics unchanged -/

theorem obsEq_refl (m : StatsMap) : ObsEq m m :=
  ⟨fun _ => ⟨rfl, rfl, rfl, rfl⟩, fun _ _ => rfl⟩

theorem obsEq_trans {m₁ m₂ m₃ : StatsMap} (h1 : ObsEq m₁ m₂)
    (h2 : ObsEq m₂ m₃) : ObsEq m₁ m₃ := by
  obtain ⟨a1, b1⟩ := h1
  obtain ⟨a2, b2⟩ := h2
  refine ⟨fun l => ?_, fun l d => (b2 l d).trans (b1 l d)⟩
  obtain ⟨x1, y1, z1, w1⟩ := a1 l
  obtain ⟨x2, y2, z2, w2⟩ := a2 l
  exact ⟨x2.trans x1, y2.trans y1, z2.trans z1, w2.trans w1⟩

theorem layoutView_renderLayout_self (m : StatsMap) (layout : String) :
    layoutView (renderLayout m layout).2 layout =
      { layoutView m layout with
        by_direction :=
          (byDirectionSection (layoutView m layout).by_direction).2 } := by
  unfold renderLayout layoutView aset
  dsimp only
  rw [agetD_alterD_self, dadGet_fst]

theorem layoutView_renderLayout_ne (m : StatsMap) {layout l : String}
    (h : l ≠ layout) :
    layoutView (renderLayout m layout).2 l = layoutView m l := by
  unfold renderLayout layoutView aset
  dsimp only
  rw [agetD_alterD_ne _ _ _ _ h, agetD_dadGet]

theorem layoutView_renderRow_self (m : StatsMap) (layout : String) :
    layoutView (renderRow m layout).2 layout =
      { layoutView m layout with
        by_direction :=
          (comparisonCells (layoutView m layout).by_direction).2 } := by
  unfold renderRow layoutView aset
  dsimp only
  rw [agetD_alterD_self, dadGet_fst]

theorem layoutView_renderRow_ne (m : StatsMap) {layout l : String}
    (h : l ≠ layout) :
    layoutView (renderRow m layout).2 l = layoutView m l := by
  unfold renderRow layoutView aset
  dsimp only
  rw [agetD_alterD_ne _ _ _ _ h, agetD_dadGet]

theorem renderLayout_obs (m : StatsMap) (layout : String) :
    ObsEq m (renderLayout m layout).2 := by
  constructor
  · intro l
    by_cases hl : l = layout
    · subst hl
      rw [layoutView_renderLayout_self]
      exact ⟨rfl, rfl, rfl, rfl⟩
    · rw [layoutView_renderLayout_ne m hl]
      exact ⟨rfl, rfl, rfl, rfl⟩
  · intro l d
    by_cases hl : l = layout
    · subst hl
      rw [layoutView_renderLayout_self]
      unfold dirView
      dsimp only
      exact byDirectionSection_agetD _ d
    · rw [layoutView_renderLayout_ne m hl]

theorem renderRow_obs (m : StatsMap) (layout : String) :
    ObsEq m (renderRow m layout).2 := by
  constructor
  · intro l
    by_cases hl : l = layout
    · subst hl
      rw [layoutView_renderRow_self]
      exact ⟨rfl, rfl, rfl, rfl⟩
    · rw [layoutView_renderRow_ne m hl]
      exact ⟨rfl, rfl, rfl, rfl⟩
  · intro l d
    by_cases hl : l = layout
    · subst hl
      rw [layoutView_renderRow_self]
      unfold dirView
      dsimp only
      exact comparisonCells_agetD _ d
    · rw [layoutView_renderRow_ne m hl]

theorem passB_state_obs (ks : List String) :
    ∀ (acc : List LayoutSection) (m : StatsMap),
      ObsEq m ((ks.foldl (fun acc layout =>
        let r := renderLayout acc.2 layout
        (acc.1 ++ [r.1], r.2)) (acc, m)).2) := by
  induction ks with
  | nil => intro acc m; exact obsEq_refl m
  | cons k t ih =>
    intro acc m
    rw [List.foldl_cons]
    exact obsEq_trans (renderLayout_obs m k)
      (ih (acc ++ [(renderLayout m k).1]) ((renderLayout m k).2))

theorem passC_state_obs (ks : List String) :
    ∀ (acc : List TableRow) (m : StatsMap),
      ObsEq m ((ks.foldl (fun acc layout =>
        let r := renderRow acc.2 layout
        (acc.1 ++ [r.1], r.2)) (acc, m)).2) := by
  induction ks with
  | nil => intro acc m; exact obsEq_refl m
  | cons k t ih =>
    intro acc m
    rw [List.foldl_cons]
    exact obsEq_trans (renderRow_obs m k)
      (ih (acc ++ [(renderRow m k).1]) ((renderRow m k).2))

theorem passB_obs (m : StatsMap) : ObsEq m (passB m).2 := by
  unfold passB
  exact passB_state_obs (sortedKeys m) [] m

theorem passC_obs (m : StatsMap) : ObsEq m (passC m).2 := by
  unfold passC
  exact passC_state_obs (sortedKeys m) [] m

theorem reportState_obs (m : StatsMap) : ObsEq m (reportState m) := by
  unfold reportState
  exact obsEq_trans (passB_obs m) (passC_obs (passB m).2)

/-! ### Key-set lemmas -/

theorem mem_akeys_iff {α : Type} (m : List (String × α)) (k : String) :
    k ∈ akeys m ↔ (alookup m k).isSome := by
  induction m with
  | nil => simp [akeys, alookup]
  | cons q t ih =>
    obtain ⟨k₀, v⟩ := q
    simp only [akeys, List.map_cons, List.mem_cons] at ih ⊢
    by_cases h0 : k₀ = k
    · simp [alookup, h0]
    · simp [alookup, h0, Ne.symm h0, ih]

theorem akeys_alterD_of_mem {α : Type} (m : List (String × α)) (k : String)
    (d : α) (f : α → α) :
    (alookup m k).isSome → akeys (alterD m k d f) = akeys m := by
  induction m with
  | nil => intro h; simp [alookup] at h
  | cons q t ih =>
    intro h
    obtain ⟨k₀, v⟩ := q
    by_cases h0 : k₀ = k
    · simp [alterD, akeys, h0]
    · simp only [alookup, if_neg h0] at h
      simp only [alterD, if_neg h0]
      have hrec := ih h
      simp only [akeys, List.map_cons] at hrec ⊢
      rw [hrec]

theorem dadGet_of_mem {α : Type} (m : List (String × α)) (k : String) (d : α)
    (h : (alookup m k).isSome) : (dadGet m k d).2 = m := by
  unfold dadGet
  cases halo : alookup m k with
  | some v => rfl
  | none =>
    rw [halo] at h
    simp at h

theorem mem_akeys_alterD {α : Type} (m : List (String × α)) (k l : String)
    (d : α) (f : α → α) :
    l ∈ akeys (alterD m k d f) ↔ l ∈ akeys m ∨ l = k := by
  induction m with
  | nil => simp [alterD, akeys]
  | cons q t ih =>
    obtain ⟨k₀, v⟩ := q
    by_cases h0 : k₀ = k
    · subst h0
      simp only [alterD, if_pos rfl]
      simp [akeys]
      tauto
    · simp only [alterD, if_neg h0]
      simp [akeys] at ih ⊢
      tauto

theorem akeys_alterD_nodup {α : Type} (m : List (String × α)) (k : String)
    (d : α) (f : α → α) :
    (akeys m).Nodup → (akeys (alterD m k d f)).Nodup := by
  induction m with
  | nil => intro _; simp [alterD, akeys]
  | cons q t ih =>
    intro h
    obtain ⟨k₀, v⟩ := q
    simp only [akeys, List.map_cons, List.nodup_cons] at h
    by_cases h0 : k₀ = k
    · subst h0
      simp only [alterD, if_pos rfl]
      simpa [akeys] using h
    · simp only [alterD, if_neg h0]
      simp only [akeys, List.map_cons, List.nodup_cons]
      refine ⟨?_, ih h.2⟩
      intro hmem
      rcases (mem_akeys_alterD t k k₀ d f).1 hmem with hin | hk
      · exact h.1 hin
      · exact h0 hk

theorem renderLayout_akeys (m : StatsMap) (layout : String)
    (h : (alookup m layout).isSome) :
    akeys (renderLayout m layout).2 = akeys m := by
  unfold renderLayout aset
  dsimp only
  rw [dadGet_of_mem m layout zeroLayoutStats h]
  exact akeys_alterD_of_mem m layout _ _ h

theorem renderRow_akeys (m : StatsMap) (layout : String)
    (h : (alookup m layout).isSome) :
    akeys (renderRow m layout).2 = akeys m := by
  unfold renderRow aset
  dsimp only
  rw [dadGet_of_mem m layout zeroLayoutStats h]
  exact akeys_alterD_of_mem m layout _ _ h

theorem sortedKeys_sub (m : StatsMap) : ∀ k ∈ sortedKeys m, k ∈ akeys m := by
  intro k hk
  unfold sortedKeys at hk
  exact (List.perm_insertionSort _ _).subset hk

theorem passB_state_akeys (ks : List String) :
    ∀ (acc : List LayoutSection) (m : StatsMap),
      (∀ k ∈ ks, k ∈ akeys m) →
      akeys ((ks.foldl (fun acc layout =>
        let r := renderLayout acc.2 layout
        (acc.1 ++ [r.1], r.2)) (acc, m)).2) = akeys m := by
  induction ks with
  | nil => intro acc m _; rfl
  | cons k t ih =>
    intro acc m h
    rw [List.foldl_cons]
    have hk : (alookup m k).isSome := (mem_akeys_iff m k).1 (h k (by simp))
    have hr : akeys (renderLayout m k).2 = akeys m := renderLayout_akeys m k hk
    have ht : ∀ k' ∈ t, k' ∈ akeys (renderLayout m k).2 := by
      intro k' hk'
      rw [hr]
      exact h k' (List.mem_cons_of_mem _ hk')
    have h1 := ih (acc ++ [(renderLayout m k).1]) ((renderLayout m k).2) ht
    rw [hr] at h1
    exact h1

theorem passC_state_akeys (ks : List String) :
    ∀ (acc : List TableRow) (m : StatsMap),
      (∀ k ∈ ks, k ∈ akeys m) →
      akeys ((ks.foldl (fun acc layout =>
        let r := renderRow acc.2 layout
        (acc.1 ++ [r.1], r.2)) (acc, m)).2) = akeys m := by
  induction ks with
  | nil => intro acc m _; rfl
  | cons k t ih =>
    intro acc m h
    rw [List.foldl_cons]
    have hk : (alookup m k).isSome := (mem_akeys_iff m k).1 (h k (by simp))
    have hr : akeys (renderRow m k).2 = akeys m := renderRow_akeys m k hk
    have ht : ∀ k' ∈ t, k' ∈ akeys (renderRow m k).2 := by
      intro k' hk'
      rw [hr]
      exact h k' (List.mem_cons_of_mem _ hk')
    have h1 := ih (acc ++ [(renderRow m k).1]) ((renderRow m k).2) ht
    rw [hr] at h1
    exact h1

theorem passB_akeys (m : StatsMap) : akeys (passB m).2 = akeys m := by
  unfold passB
  exact passB_state_akeys (sortedKeys m) [] m (sortedKeys_sub m)

theorem passC_akeys (m : StatsMap) : akeys (passC m).2 = akeys m := by
  unfold passC
  exact passC_state_akeys (sortedKeys m) [] m (sortedKeys_sub m)

theorem reportState_akeys (m : StatsMap) : akeys (reportState m) = akeys m := by
  unfold reportState
  rw [passC_akeys, passB_akeys]

/-! ### Report ordering -/

theorem renderLayout_fst_layout (m : StatsMap) (layout : String) :
    ((renderLayout m layout).1).layout = layout := rfl

theorem renderRow_fst_layout (m : StatsMap) (layout : String) :
    ((renderRow m layout).1).layout = layout := rfl

theorem passB_fold_sections (ks : List String) :
    ∀ (acc : List LayoutSection) (m : StatsMap),
      (((ks.foldl (fun acc layout =>
        let r := renderLayout acc.2 layout
        (acc.1 ++ [r.1], r.2)) (acc, m)).1).map LayoutSection.layout) =
        acc.map LayoutSection.layout ++ ks := by
  induction ks with
  | nil => intro acc m; simp
  | cons k t ih =>
    intro acc m
    rw [List.foldl_cons]
    have h1 := ih (acc ++ [(renderLayout m k).1]) ((renderLayout m k).2)
    refine Eq.trans h1 ?_
    simp [renderLayout_fst_layout]

theorem passC_fold_rows (ks : List String) :
    ∀ (acc : List TableRow) (m : StatsMap),
      (((ks.foldl (fun acc layout =>
        let r := renderRow acc.2 layout
        (acc.1 ++ [r.1], r.2)) (acc, m)).1).map TableRow.layout) =
        acc.map TableRow.layout ++ ks := by
  induction ks with
  | nil => intro acc m; simp
  | cons k t ih =>
    intro acc m
    rw [List.foldl_cons]
    have h1 := ih (acc ++ [(renderRow m k).1]) ((renderRow m k).2)
    refine Eq.trans h1 ?_
    simp [renderRow_fst_layout]

theorem passB_sections_layouts (m : StatsMap) :
    ((passB m).1).map LayoutSection.layout = sortedKeys m := by
  unfold passB
  simpa using passB_fold_sections (sortedKeys m) [] m

theorem passC_rows_layouts (m : StatsMap) :
    ((passC m).1).map TableRow.layout = sortedKeys m := by
  unfold passC
  simpa using passC_fold_rows (sortedKeys m) [] m

theorem sortedKeys_congr {m m' : StatsMap} (h : akeys m = akeys m') :
    sortedKeys m = sortedKeys m' := by
  unfold sortedKeys
  rw [h]

theorem sortedKeys_sorted_le (m : StatsMap) :
    List.Sorted (· ≤ ·) (sortedKeys m) :=
  List.sorted_insertionSort (· ≤ ·) (akeys m)

theorem akeys_aggregate_nodup (rs : List Record) :
    (akeys (aggregate rs)).Nodup := by
  suffices h : ∀ m : StatsMap, (akeys m).Nodup →
      (akeys (rs.foldl stepRecord m)).Nodup by
    exact h [] (by simp [akeys])
  induction rs with
  | nil => intro m hm; exact hm
  | cons r t ih =>
    intro m hm
    exact ih _ (akeys_alterD_nodup m r.layout _ _ hm)

theorem sortedKeys_nodup (rs : List Record) :
    (sortedKeys (aggregate rs)).Nodup :=
  ((List.perm_insertionSort (· ≤ ·) (akeys (aggregate rs))).nodup_iff).2
    (akeys_aggregate_nodup rs)

theorem sortedKeys_sorted_lt (rs : List Record) :
    List.Sorted (· < ·) (sortedKeys (aggregate rs)) :=
  List.Sorted.lt_of_le (sortedKeys_sorted_le (aggregate rs)) (sortedKeys_nodup rs)

theorem mem_akeys_foldl (rs : List Record) :
    ∀ (m : StatsMap) (l : String),
      l ∈ akeys (rs.foldl stepRecord m) ↔
        l ∈ akeys m ∨ ∃ r ∈ rs, r.layout = l := by
  induction rs with
  | nil => intro m l; simp
  | cons r t ih =>
    intro m l
    rw [List.foldl_cons]
    rw [ih (stepRecord m r) l]
    unfold stepRecord
    rw [mem_akeys_alterD]
    simp only [List.mem_cons]
    constructor
    · rintro ((h | h) | ⟨r', hr', hl⟩)
      · exact Or.inl h
      · exact Or.inr ⟨r, Or.inl rfl, h.symm⟩
      · exact Or.inr ⟨r', Or.inr hr', hl⟩
    · rintro (h | ⟨r', (rfl | hr'), hl⟩)
      · exact Or.inl (Or.inl h)
      · exact Or.inl (Or.inr hl.symm)
      · exact Or.inr ⟨r', hr', hl⟩

theorem mem_akeys_aggregate (rs : List Record) (l : String) :
    l ∈ akeys (aggregate rs) ↔ ∃ r ∈ rs, r.layout = l := by
  have h := mem_akeys_foldl rs [] l
  simpa [akeys] using h

theorem sortedKeys_perm_invariant {rs rs' : List Record} (h : rs.Perm rs') :
    sortedKeys (aggregate rs') = sortedKeys (aggregate rs) := by
  have hmem : ∀ a, a ∈ akeys (aggregate rs') ↔ a ∈ akeys (aggregate rs) := by
    intro a
    rw [mem_akeys_aggregate, mem_akeys_aggregate]
    constructor
    · rintro ⟨r, hr, rfl⟩
      exact ⟨r, h.mem_iff.2 hr, rfl⟩
    · rintro ⟨r, hr, rfl⟩
      exact ⟨r, h.mem_iff.1 hr, rfl⟩
  have hperm : (akeys (aggregate rs')).Perm (akeys (aggregate rs)) :=
    (List.perm_ext_iff_of_nodup (akeys_aggregate_nodup rs')
      (akeys_aggregate_nodup rs)).2 hmem
  have h1 : (sortedKeys (aggregate rs')).Perm (sortedKeys (aggregate rs)) := by
    unfold sortedKeys
    exact ((List.perm_insertionSort (· ≤ ·) _).trans hperm).trans
      (List.perm_insertionSort (· ≤ ·) _).symm
  exact List.eq_of_perm_of_sorted h1 (sortedKeys_sorted_le _) (sortedKeys_sorted_le _)

/-! ### Claim theorems -/

/-- C1: one aggregation step counts a record as passed precisely when its
status string is exactly "PASS" — then `passed` grows by one at both the
layout and the direction level and the failure counters are untouched; any
other status grows `failed` by one at both levels and exactly one failure
category, chosen as: `unexpected` when expected is "null" and actual is not,
`missing` when expected is not "null" and actual is, `wrong_target` in every
other case, including the degenerate expected = actual = "null" case. The
`total` counters at both levels always grow by one. -/
theorem statusClassification (m : StatsMap) (r : Record) :
    (layoutView (stepRecord m r) r.layout).total
      = (layoutView m r.layout).total + 1 ∧
    (dirView (layoutView (stepRecord m r) r.layout) r.direction).total
      = (dirView (layoutView m r.layout) r.direction).total + 1 ∧
    (if r.status = "PASS" then
      (layoutView (stepRecord m r) r.layout).passed
          = (layoutView m r.layout).passed + 1 ∧
      (layoutView (stepRecord m r) r.layout).failed
          = (layoutView m r.layout).failed ∧
      (dirView (layoutView (stepRecord m r) r.layout) r.direction).passed
          = (dirView (layoutView m r.layout) r.direction).passed + 1 ∧
      (dirView (layoutView (stepRecord m r) r.layout) r.direction).failed
          = (dirView (layoutView m r.layout) r.direction).failed ∧
      (layoutView (stepRecord m r) r.layout).failure_types
          = (layoutView m r.layout).failure_types
    else
      (layoutView (stepRecord m r) r.layout).passed
          = (layoutView m r.layout).passed ∧
      (layoutView (stepRecord m r) r.layout).failed
          = (layoutView m r.layout).failed + 1 ∧
      (dirView (layoutView (stepRecord m r) r.layout) r.direction).passed
          = (dirView (layoutView m r.layout) r.direction).passed ∧
      (dirView (layoutView (stepRecord m r) r.layout) r.direction).failed
          = (dirView (layoutView m r.layout) r.direction).failed + 1 ∧
      (layoutView (stepRecord m r) r.layout).failure_types
          = (if r.expected = "null" then
              (if r.actual = "null" then
                { (layoutView m r.layout).failure_types with
                  wrong_target :=
                    (layoutView m r.layout).failure_types.wrong_target + 1 }
              else
                { (layoutView m r.layout).failure_types with
                  unexpected :=
                    (layoutView m r.layout).failure_types.unexpected + 1 })
            else
              (if r.actual = "null" then
                { (layoutView m r.layout).failure_types with
                  missing :=
                    (layoutView m r.layout).failure_types.missing + 1 }
              else
                { (layoutView m r.layout).failure_types with
                  wrong_target :=
                    (layoutView m r.layout).failure_types.wrong_target + 1 }))) := by
  have hL : layoutView (stepRecord m r) r.layout
      = updateStats r (layoutView m r.layout) := by
    unfold layoutView stepRecord
    rw [agetD_alterD_self]
  rw [hL]
  by_cases hst : r.status = "PASS"
  · simp [updateStats, dirView, hst, alterD_alterD, agetD_alterD_self]
  · by_cases he : r.expected = "null" <;> by_cases ha : r.actual = "null" <;>
      simp [updateStats, dirView, hst, he, ha, alterD_alterD, agetD_alterD_self]

/-- C2: after the aggregation fold, every layout entry satisfies
`total = passed + failed`, and so does every direction triple inside its
`by_direction` mapping. -/
theorem countersBalance (rs : List Record) (layout : String) (s : LayoutStats)
    (h : (layout, s) ∈ aggregate rs) :
    s.total = s.passed + s.failed ∧
    ∀ direction t, (direction, t) ∈ s.by_direction →
      t.total = t.passed + t.failed := by
  have hok := aggregate_ok rs (layout, s) h
  exact ⟨hok.1.1, fun d t ht => hok.1.2.2 (d, t) ht⟩

/-- Witness for C2: the invariant holds on the concrete one-record input. -/
theorem countersBalance_witness :
    (("a", statsPassUp) ∈ aggregate [rPassUp]) ∧
    (statsPassUp.total = statsPassUp.passed + statsPassUp.failed ∧
      ∀ direction t, (direction, t) ∈ statsPassUp.by_direction →
        t.total = t.passed + t.failed) :=
  ⟨by decide, countersBalance [rPassUp] "a" statsPassUp (by decide)⟩

/-- C3: after the aggregation fold, every layout entry satisfies
`failed = unexpected + missing + wrong_target`: every failing record lands in
exactly one failure category. -/
theorem failureTypesPartition (rs : List Record) (layout : String)
    (s : LayoutStats) (h : (layout, s) ∈ aggregate rs) :
    s.failed = s.failure_types.unexpected + s.failure_types.missing +
      s.failure_types.wrong_target :=
  (aggregate_ok rs (layout, s) h).1.2.1

/-- Witness for C3: the invariant holds on the concrete one-record input. -/
theorem failureTypesPartition_witness :
    (("a", statsPassUp) ∈ aggregate [rPassUp]) ∧
    statsPassUp.failed = statsPassUp.failure_types.unexpected +
      statsPassUp.failure_types.missing + statsPassUp.failure_types.wrong_target :=
  ⟨by decide, failureTypesPartition [rPassUp] "a" statsPassUp (by decide)⟩

/-- C10: every layout entry the fold creates has been incremented at least
once, so `total ≥ 1` and the `else 0` branches of the two guarded rate
expressions (lines 70 and 103) are unreachable: both rates reduce to the
unguarded division. -/
theorem layoutTotalsPositive (rs : List Record) (layout : String)
    (s : LayoutStats) (h : (layout, s) ∈ aggregate rs) :
    0 < s.total ∧
    success_rate s = (s.passed : ℚ) / (s.total : ℚ) * 100 ∧
    overall_rate s = (s.passed : ℚ) / (s.total : ℚ) * 100 := by
  have hp := (aggregate_ok rs (layout, s) h).2
  exact ⟨hp, by simp [success_rate, hp], by simp [overall_rate, hp]⟩

/-- Witness for C10 on the concrete one-record input. -/
theorem layoutTotalsPositive_witness :
    (("a", statsPassUp) ∈ aggregate [rPassUp]) ∧
    (0 < statsPassUp.total ∧
      success_rate statsPassUp =
        (statsPassUp.passed : ℚ) / (statsPassUp.total : ℚ) * 100 ∧
      overall_rate statsPassUp =
        (statsPassUp.passed : ℚ) / (statsPassUp.total : ℚ) * 100) :=
  ⟨by decide, layoutTotalsPositive [rPassUp] "a" statsPassUp (by decide)⟩

/-- C6: on the empty record sequence the aggregated map is empty, so
`total_tests = 0` and the overall summary's unguarded division by
`total_tests` aborts the run (no report is produced). -/
theorem emptyDatasetAborts :
    total_tests (aggregate []) = 0 ∧
    overallSummary (aggregate []) = none ∧
    fullReport [] = none := by
  refine ⟨rfl, ?_, ?_⟩ <;> decide

/-- C7: both reporting passes visit the layouts in the order
`sorted(layout_stats.keys())`, which is strictly lexicographically ascending,
and that order is invariant under permuting the input records. -/
theorem reportLayoutOrdering (rs rs' : List Record) (hperm : rs.Perm rs') :
    ((passB (aggregate rs)).1.map LayoutSection.layout
      = sortedKeys (aggregate rs)) ∧
    ((passC (passB (aggregate rs)).2).1.map TableRow.layout
      = sortedKeys (aggregate rs)) ∧
    List.Sorted (· < ·) (sortedKeys (aggregate rs)) ∧
    sortedKeys (aggregate rs') = sortedKeys (aggregate rs) := by
  refine ⟨passB_sections_layouts _, ?_, sortedKeys_sorted_lt rs,
    sortedKeys_perm_invariant hperm⟩
  rw [passC_rows_layouts]
  exact sortedKeys_congr (passB_akeys _)

/-- Witness for C7 on a concrete two-record input and its swap. -/
theorem reportLayoutOrdering_witness :
    ((passB (aggregate [rPassUp, rOther])).1.map LayoutSection.layout
      = sortedKeys (aggregate [rPassUp, rOther])) ∧
    ((passC (passB (aggregate [rPassUp, rOther])).2).1.map TableRow.layout
      = sortedKeys (aggregate [rPassUp, rOther])) ∧
    List.Sorted (· < ·) (sortedKeys (aggregate [rPassUp, rOther])) ∧
    sortedKeys (aggregate [rOther, rPassUp])
      = sortedKeys (aggregate [rPassUp, rOther]) :=
  reportLayoutOrdering [rPassUp, rOther] [rOther, rPassUp]
    (List.Perm.swap rOther rPassUp [])

/-- C8: the per-layout "By Direction" block renders exactly the canonical
directions, in the fixed order up, down, left, right, skipping a direction
precisely when its total is zero; a record's direction value — canonical or
not — is always aggregated into `by_direction`. -/
theorem byDirectionRendering (stats : LayoutStats) (m : StatsMap) (r : Record) :
    ((byDirectionSection stats.by_direction).1
      = canonicalDirections.filterMap (dirLineOf stats.by_direction)) ∧
    (∀ direction, dirLineOf stats.by_direction direction = none ↔
      (dirView stats direction).total = 0) ∧
    ((alookup (layoutView (stepRecord m r) r.layout).by_direction
        r.direction).isSome = true) := by
  refine ⟨byDirectionSection_fst _, ?_, ?_⟩
  · intro direction
    unfold dirLineOf dirView
    dsimp only
    by_cases h : (agetD stats.by_direction direction zeroDirStats).total > 0 <;>
      simp [h] <;> omega
  · have hL : layoutView (stepRecord m r) r.layout
        = updateStats r (layoutView m r.layout) := by
      unfold layoutView stepRecord
      rw [agetD_alterD_self]
    rw [hL]
    unfold updateStats
    by_cases hst : r.status = "PASS"
    · simp [hst, alterD_alterD, alookup_alterD_self]
    · by_cases he : r.expected = "null" <;> by_cases ha : r.actual = "null" <;>
        simp [hst, he, ha, alterD_alterD, alookup_alterD_self]

/-- C9: each comparison-table row holds one cell per canonical direction, in
the fixed order; the cell is the direction's pass rate when its total is
positive and the literal N/A marker when the direction had zero attempts, so
the division only ever happens under the zero-check. -/
theorem comparisonTableCells (by_direction : DirMap) :
    ((comparisonCells by_direction).1
      = canonicalDirections.map (cellOf by_direction)) ∧
    (∀ direction,
      (0 < (agetD by_direction direction zeroDirStats).total →
        cellOf by_direction direction =
          Cell.rate (((agetD by_direction direction zeroDirStats).passed : ℚ) /
            ((agetD by_direction direction zeroDirStats).total : ℚ) * 100)) ∧
      ((agetD by_direction direction zeroDirStats).total = 0 →
        cellOf by_direction direction = Cell.na)) := by
  refine ⟨comparisonCells_fst _, fun direction => ⟨?_, ?_⟩⟩
  · intro h
    unfold cellOf
    dsimp only
    rw [if_pos h]
  · intro h
    unfold cellOf
    dsimp only
    rw [if_neg (by omega)]

/-- C4 counterexample: reporting is not literally read-only on the aggregated
structure. After aggregating the single passing record for layout "a",
direction "up", the reporting passes' defaultdict accesses insert zero-valued
sub-counters for the canonical directions "down", "left" and "right" into that
layout's `by_direction`, so the stats map after reporting differs from the one
the aggregator produced. -/
theorem reportStateMutates :
    reportState (aggregate [rPassUp]) ≠ aggregate [rPassUp] := by decide

/-- C4 amended: reporting changes no observable statistic — the layout key
list is unchanged, and for every layout name and direction the counters,
failure types and direction triples read through defaultdict lookups are
identical before and after both reporting passes; the only mutation is the
insertion of zero-valued direction sub-counters by defaultdict access. -/
theorem reportObservationallyReadOnly (m : StatsMap)
    (layout direction : String) :
    akeys (reportState m) = akeys m ∧
    (layoutView (reportState m) layout).total = (layoutView m layout).total ∧
    (layoutView (reportState m) layout).passed = (layoutView m layout).passed ∧
    (layoutView (reportState m) layout).failed = (layoutView m layout).failed ∧
    (layoutView (reportState m) layout).failure_types
      = (layoutView m layout).failure_types ∧
    dirView (layoutView (reportState m) layout) direction
      = dirView (layoutView m layout) direction := by
  obtain ⟨ha, hb⟩ := reportState_obs m
  obtain ⟨h1, h2, h3, h4⟩ := ha layout
  exact ⟨reportState_akeys m, h1, h2, h3, h4, hb layout direction⟩

/-- C5 counterexample: the overall summary's failed percentage (line 62,
`total_failed/total_tests*100`) is not the complementary share
`100 - total_passed/total_tests*100`: as functions of the three summary
counters the two formulas differ, e.g. at total 3, passed 1, failed 1 the
code's formula yields 100/3 while the complement yields 200/3. -/
theorem overallFailedNotComplement :
    overallFailedPct mUnbalanced ≠ overallFailedComplement mUnbalanced := by
  have h1 : total_tests mUnbalanced = 3 := by decide
  have h2 : total_passed mUnbalanced = 1 := by decide
  have h3 : total_failed mUnbalanced = 1 := by decide
  simp only [overallFailedPct, overallSummary, overallFailedComplement, qdiv,
    h1, h2, h3]
  norm_num

/-- C5 amended: only the per-layout detail (line 76) computes the failed
percentage as 100 minus the passed rate; the overall summary (line 62)
recomputes it independently as `total_failed/total_tests*100`. Under the
embedding's exact arithmetic the two methods agree on every non-empty
aggregate, because there `total_tests = total_passed + total_failed`. -/
theorem failedPctFormulas :
    (∀ (m : StatsMap) (layout : String),
      ((renderLayout m layout).1).failedPct
        = 100 - success_rate (layoutView m layout)) ∧
    (∀ rs : List Record, rs ≠ [] →
      overallFailedPct (aggregate rs) = overallFailedComplement (aggregate rs)) := by
  constructor
  · intro m layout
    unfold renderLayout layoutView
    dsimp only
    rw [dadGet_fst]
  · intro rs hne
    have htt : total_tests (aggregate rs) = rs.length := total_tests_aggregate rs
    have hpos : total_tests (aggregate rs) ≠ 0 := by
      rw [htt]
      simpa using hne
    have hsplit : total_tests (aggregate rs)
        = total_passed (aggregate rs) + total_failed (aggregate rs) :=
      totals_split (aggregate rs) (fun p hp => (aggregate_ok rs p hp).1.1)
    have httQ : ((total_tests (aggregate rs) : ℚ)) ≠ 0 := by
      exact_mod_cast hpos
    have hq : (total_passed (aggregate rs) : ℚ) + (total_failed (aggregate rs) : ℚ)
        = (total_tests (aggregate rs) : ℚ) := by
      exact_mod_cast hsplit.symm
    simp only [overallFailedPct, overallSummary, overallFailedComplement, qdiv,
      if_neg httQ, Option.map_some']
    rw [Option.some_inj]
    field_simp
    linarith [hq]
